import Mathlib

/-!
# Verification of the nori SAH kd-tree / triangle-mesh subsystem

This file shallowly embeds the parts of the nori ray tracer that the spec's
claims are about, and proves (or refutes) each claim against the embedding.

Sources embedded here:
* `src/src/mesh.cpp` — `Mesh::rayIntersect` (Möller–Trumbore),
  `sutherlandHodgman`, `Mesh::getClippedBoundingBox`;
* `src/include/nori/gkdtree.h` — node bit layout (`KDNode`), the entry sanity
  checks of `buildInternal`, the compactification walk that lays out the final
  node array, the PBRT bad-refines gate and the retraction decision of
  `buildTree` / `buildTreeMinMax`;
* the Havran `TA_B_rec` traversal loop of `KDTree::rayIntersect`.

Modelling conventions:
* `float` / `double` arithmetic is idealized as exact rational arithmetic (`ℚ`);
  IEEE infinities that the builder uses as sentinels are modelled by the
  two-constructor type `FCost` below.  All comparisons in the embedded code are
  order comparisons, which the rational model reproduces exactly on the
  concrete inputs used here.
* Out-of-bounds array reads (undefined behaviour in C++) surface as `none`
  through `List.get?`.
* `nori/bbox.h` is not part of `src/`; the handful of bounding-box operations
  the embedded code needs (`expandBy`, `clip`, the slab ray test, the empty
  default box) are modelled from the spec and marked `Modelled from the spec:`
  in their doc comments.
-/

namespace NoriKD

/-- A 3D point/vector over `ℚ`; models nori's `Point3f` / `Vector3f` /
`Point3d` (float and double arithmetic idealized as exact rationals). -/
@[ext]
structure Vec3 where
  x : ℚ
  y : ℚ
  z : ℚ
deriving DecidableEq, Repr

/-- Componentwise addition. -/
def Vec3.add (a b : Vec3) : Vec3 := ⟨a.x + b.x, a.y + b.y, a.z + b.z⟩

/-- Componentwise subtraction. -/
def Vec3.sub (a b : Vec3) : Vec3 := ⟨a.x - b.x, a.y - b.y, a.z - b.z⟩

/-- Scalar multiplication. -/
def Vec3.smul (t : ℚ) (a : Vec3) : Vec3 := ⟨t * a.x, t * a.y, t * a.z⟩

/-- Dot product. -/
def Vec3.dot (a b : Vec3) : ℚ := a.x * b.x + a.y * b.y + a.z * b.z

/-- Cross product (Eigen's `cross`). -/
def Vec3.cross (a b : Vec3) : Vec3 :=
  ⟨a.y * b.z - a.z * b.y, a.z * b.x - a.x * b.z, a.x * b.y - a.y * b.x⟩

/-- Coordinate access `v[axis]`. -/
def Vec3.get (v : Vec3) (a : Fin 3) : ℚ :=
  match a with
  | 0 => v.x
  | 1 => v.y
  | 2 => v.z

/-- Coordinate update `v[axis] = q`. -/
def Vec3.setAxis (v : Vec3) (a : Fin 3) (q : ℚ) : Vec3 :=
  match a with
  | 0 => ⟨q, v.y, v.z⟩
  | 1 => ⟨v.x, q, v.z⟩
  | 2 => ⟨v.x, v.y, q⟩

/-- A ray with its segment `[mint, maxt]` and the cached componentwise
reciprocal direction, as in `nori/ray.h`. -/
structure RayQ where
  o : Vec3
  d : Vec3
  dRcp : Vec3
  mint : ℚ
  maxt : ℚ
deriving DecidableEq, Repr

/-- `TRay::operator()` — the position `o + t * d` along the ray. -/
def RayQ.point (r : RayQ) (t : ℚ) : Vec3 := r.o.add (Vec3.smul t r.d)

/-!
## Triangle meshes and `Mesh::rayIntersect` (claim C1)

`MeshData` is the part of `Mesh` that ray/triangle intersection reads: the
vertex position array and the flat index array of which each consecutive
3 entries describe a triangle.
-/

/-- The mesh data read by `Mesh::rayIntersect`. -/
structure MeshData where
  vertexPositions : List Vec3
  indices : List ℕ
deriving DecidableEq, Repr

/-- The Möller–Trumbore intersection computation that forms the body of
`Mesh::rayIntersect` (src/src/mesh.cpp lines 107-139), for already fetched
vertices `p0 p1 p2`.  Returns `some (u, v, t)` on success, `none` on a miss.
The float literal `1e-8f` in the determinant cutoff is the exact rational
`1/10^8`. -/
def mollerTrumbore (p0 p1 p2 : Vec3) (ray : RayQ) : Option (ℚ × ℚ × ℚ) :=
  let edge1 := p1.sub p0
  let edge2 := p2.sub p0
  let pvec := ray.d.cross edge2
  let det := edge1.dot pvec
  if -(1/100000000) < det ∧ det < 1/100000000 then none
  else
    let inv_det := 1 / det
    let tvec := ray.o.sub p0
    let u := tvec.dot pvec * inv_det
    if u < 0 ∨ u > 1 then none
    else
      let qvec := tvec.cross edge1
      let v := ray.d.dot qvec * inv_det
      if v < 0 ∨ u + v > 1 then none
      else some (u, v, edge2.dot qvec * inv_det)

/-- `Mesh::rayIntersect(index, ray, u, v, t)` exactly as written in
src/src/mesh.cpp lines 97-140: the three vertex indices are fetched from
`m_indices[3*index]`, `m_indices[3*index+1]` and — as the source reads —
`m_indices[3*index+3]`.  Index loads go through `List.get?`, so the
out-of-bounds read that the `+3` causes on the last triangle of a mesh
surfaces as `none`. -/
def meshRayIntersect (m : MeshData) (index : ℕ) (ray : RayQ) : Option (ℚ × ℚ × ℚ) :=
  match m.indices.get? (3*index), m.indices.get? (3*index+1), m.indices.get? (3*index+3) with
  | some i0, some i1, some i2 =>
    match m.vertexPositions.get? i0, m.vertexPositions.get? i1, m.vertexPositions.get? i2 with
    | some p0, some p1, some p2 => mollerTrumbore p0 p1 p2 ray
    | _, _, _ => none
  | _, _, _ => none

/-- `Mesh::rayIntersect` with the vertex indexing that the claim (and every
other triangle accessor of the same file: `Mesh::surfaceArea`,
`Mesh::getBoundingBox`, `Mesh::samplePosition`, and the barycentric recovery in
`KDTree::rayIntersect`) uses: the third vertex comes from
`m_indices[3*index+2]`. -/
def meshRayIntersectSpec (m : MeshData) (index : ℕ) (ray : RayQ) : Option (ℚ × ℚ × ℚ) :=
  match m.indices.get? (3*index), m.indices.get? (3*index+1), m.indices.get? (3*index+2) with
  | some i0, some i1, some i2 =>
    match m.vertexPositions.get? i0, m.vertexPositions.get? i1, m.vertexPositions.get? i2 with
    | some p0, some p1, some p2 => mollerTrumbore p0 p1 p2 ray
    | _, _, _ => none
  | _, _, _ => none

/-- Scenario S1: the single triangle `v0=(0,0,0), v1=(1,0,0), v2=(0,1,0)`. -/
def s1Mesh : MeshData :=
  { vertexPositions := [⟨0,0,0⟩, ⟨1,0,0⟩, ⟨0,1,0⟩], indices := [0, 1, 2] }

/-- Scenario S1's ray: origin `(1/4, 1/4, 1)`, direction `(0,0,-1)`,
segment `[0, 10]` (so `tmin ≤ 1 ≤ tmax`). -/
def s1Ray : RayQ :=
  { o := ⟨1/4, 1/4, 1⟩, d := ⟨0, 0, -1⟩, dRcp := ⟨0, 0, -1⟩, mint := 0, maxt := 10 }

/-- A two-triangle mesh whose second triangle reuses the first three index
entries, so that the erroneous `m_indices[3*index+3]` read stays in bounds for
`index = 0` and demonstrably fetches the wrong vertex. -/
def twoTriMesh : MeshData :=
  { vertexPositions := [⟨0,0,0⟩, ⟨1,0,0⟩, ⟨0,1,0⟩], indices := [0, 1, 2, 0, 1, 2] }

/-!
## `buildInternal` entry checks (claims C6 and C10)
-/

/-- The reasons for which `GenericKDTree::buildInternal` throws at entry
(gkdtree.h lines 856-867). -/
inductive BuildError
  | alreadyBuilt
  | traversalCostNotPositive
  | queryCostNotPositive
  | emptySpaceBonusOutOfRange
  | minMaxBinsTooFew
deriving DecidableEq, Repr

/-- The configuration state read by the sanity checks of `buildInternal`. -/
structure KDConfig where
  isBuilt : Bool
  traversalCost : ℚ
  queryCost : ℚ
  emptySpaceBonus : ℚ
  minMaxBins : ℕ
deriving DecidableEq, Repr

/-- The sanity checks at the top of `buildInternal` (gkdtree.h 856-867), in
source order.  They run before any tree state is touched, so a `some` result
models an exception leaving the tree in the "not built" state. -/
def buildSanityCheck (c : KDConfig) : Option BuildError :=
  if c.isBuilt then some .alreadyBuilt
  else if c.traversalCost ≤ 0 then some .traversalCostNotPositive
  else if c.queryCost ≤ 0 then some .queryCostNotPositive
  else if c.emptySpaceBonus ≤ 0 ∨ 1 < c.emptySpaceBonus then some .emptySpaceBonusOutOfRange
  else if c.minMaxBins ≤ 1 then some .minMaxBinsTooFew
  else none

/-- How `buildInternal` proceeds past its entry (gkdtree.h 856-899): a failed
sanity check throws (`failed`, no tree state created); with zero primitives a
two-node array holding a single empty root leaf is allocated and the function
returns (`emptyTree`); otherwise construction proceeds.  There is no check of
the primitive count against any capacity limit. -/
inductive BuildStart
  | failed (e : BuildError)
  | emptyTree
  | proceeds
deriving DecidableEq, Repr

/-- The entry of `buildInternal` as a function of the configuration and the
registered primitive count. -/
def buildEntry (c : KDConfig) (primCount : ℕ) : BuildStart :=
  match buildSanityCheck c with
  | some e => .failed e
  | none => if primCount = 0 then .emptyTree else .proceeds

/-- The default builder configuration of the `GenericKDTree` constructor
(gkdtree.h 654-667): not yet built, `Ktrav = 15`, `Kquery = 20`,
`emptySpaceBonus = 0.9`, `minMaxBins = 128`. -/
def defaultConfig : KDConfig :=
  { isBuilt := false, traversalCost := 15, queryCost := 20,
    emptySpaceBonus := 9/10, minMaxBins := 128 }

/-!
## The retraction decision (claim C3)
-/

/-- Outcome of the "final decision" at the end of `buildTree` /
`buildTreeMinMax`. -/
inductive SplitFate
  | keepSplit
  | retractToLeaf
deriving DecidableEq, Repr

/-- The final decision of `buildTree` (gkdtree.h 2115-2127) and
`buildTreeMinMax` (gkdtree.h 1675-1687):
`if (!m_retract || finalCost < primCount * m_queryCost)` the split is kept and
`finalCost` returned, otherwise the subtree is torn down and replaced by a
leaf. -/
def finalSplitDecision (retract : Bool) (finalCost : ℚ) (primCount : ℕ)
    (queryCost : ℚ) : SplitFate :=
  if retract = false ∨ finalCost < (primCount : ℚ) * queryCost then .keepSplit
  else .retractToLeaf

/-!
## The PBRT bad-refines gate (claim C4)

Split costs are `float`s that can be the IEEE `+infinity` sentinel (the
initial value of `SplitCandidate::cost`, kept when no viable split was found).
`FCost` models exactly the values that occur: finite rationals and `inf`, with
the IEEE comparison behaviour on non-NaN values.
-/

/-- A `float` split cost: finite, or the `+infinity` sentinel. -/
inductive FCost
  | fin (q : ℚ)
  | inf
deriving DecidableEq, Repr

/-- IEEE `<` on non-NaN floats: every finite value is below `inf`,
`inf < inf` is false. -/
def FCost.ltb : FCost → FCost → Bool
  | .fin a, .fin b => a < b
  | .fin _, .inf => true
  | .inf, _ => false

/-- IEEE `<=` on non-NaN floats (equivalently `¬ (b < a)`). -/
def FCost.leb : FCost → FCost → Bool
  | .fin a, .fin b => a ≤ b
  | .fin _, .inf => true
  | .inf, .fin _ => false
  | .inf, .inf => true

/-- Decision of the bad-refines gate. -/
inductive RefineGate
  | makeLeaf
  | splitWith (badRefines : ℕ)
deriving DecidableEq, Repr

/-- The bad-refines gate of the O(n log n) event sweep, `buildTree`
(gkdtree.h 1853-1862).  `leafCost = primCount * m_queryCost` is computed at
the top of the function (line 1723).  Note the third disjunct
`bestSplit.cost == infinity` that the min-max stage does not have. -/
def badRefinesGateSweep (bestCost : FCost) (queryCost : ℚ)
    (primCount badRefines maxBadRefines : ℕ) : RefineGate :=
  let leafCost : ℚ := (primCount : ℚ) * queryCost
  if (FCost.fin leafCost).leb bestCost then
    if ((FCost.fin (4 * leafCost)).ltb bestCost ∧ primCount < 16) ∨
        maxBadRefines ≤ badRefines ∨ bestCost = .inf then
      .makeLeaf
    else .splitWith (badRefines + 1)
  else .splitWith badRefines

/-- What `buildTreeMinMax` does after `minimizeCost` (gkdtree.h 1586-1607):
an infinite candidate cost switches to the O(n log n) stage before the gate
is reached; otherwise the gate matches the sweep gate minus the infinity
disjunct. -/
inductive MinMaxNext
  | switchToNLogN
  | makeLeaf
  | splitWith (badRefines : ℕ)
deriving DecidableEq, Repr

/-- The split-or-leaf decision of the min-max binning stage,
`buildTreeMinMax` (gkdtree.h 1586-1607). -/
def minMaxGate (bestCost : FCost) (queryCost : ℚ)
    (primCount badRefines maxBadRefines : ℕ) : MinMaxNext :=
  let leafCost : ℚ := (primCount : ℚ) * queryCost
  if bestCost = .inf then .switchToNLogN
  else if (FCost.fin leafCost).leb bestCost then
    if ((FCost.fin (4 * leafCost)).ltb bestCost ∧ primCount < 16) ∨
        maxBadRefines ≤ badRefines then
      .makeLeaf
    else .splitWith (badRefines + 1)
  else .splitWith badRefines

/-!
## KDNode packing and the final node layout (claim C2)

`KDTreeBase::KDNode` (gkdtree.h 405-537) is a union of two 32-bit words.  The
compactification loop at the end of `buildInternal` (gkdtree.h 978-1043)
rewrites the preliminary tree into the final array `m_nodes`, which points one
node past a 16-byte `allocAligned` allocation (lines 973-975), so the absolute
8-byte slot of `m_nodes[i]` inside the allocation is `i + 1`.
-/

/-- A `KDNode` as two 32-bit words: the bit-packed `combined` word and the
payload word (leaf: the `end` offset; inner: the 32 raw bits of the `float`
split coordinate). -/
structure KDNodeBits where
  combined : ℕ
  payload : ℕ
deriving DecidableEq, Repr

/-- `KDNode::initLeafNode` (gkdtree.h 445-448):
`leaf.combined = ETypeMask | offset; leaf.end = offset + numPrims`
with `ETypeMask = 1 << 31`. -/
def initLeafNode (offset numPrims : ℕ) : KDNodeBits :=
  ⟨2^31 ||| offset, offset + numPrims⟩

/-- `KDNode::initInnerNode` (gkdtree.h 454-460) after its range check
`0 ≤ relOffset ≤ 2^28 - 1` has passed:
`inner.combined = axis | (relOffset << 2)`. -/
def initInnerNodeBits (axis : Fin 3) (splitBits relOffset : ℕ) : KDNodeBits :=
  ⟨(axis : ℕ) ||| (relOffset <<< 2), splitBits⟩

/-- `KDNode::isLeaf`: the high bit of `combined`. -/
def KDNodeBits.isLeaf (n : KDNodeBits) : Bool := n.combined &&& 2^31 ≠ 0

/-- `KDNode::getPrimStart`: `leaf.combined & ELeafOffsetMask`. -/
def KDNodeBits.getPrimStart (n : KDNodeBits) : ℕ := n.combined &&& (2^31 - 1)

/-- `KDNode::getPrimEnd`: the `end` word. -/
def KDNodeBits.getPrimEnd (n : KDNodeBits) : ℕ := n.payload

/-- The leaf/inner shape of the preliminary tree handed to compactification;
only the shape matters for the final slot layout. -/
inductive PrelimTree
  | leaf
  | inner (l r : PrelimTree)
deriving DecidableEq, Repr

/-- Number of nodes of a preliminary tree. -/
def PrelimTree.size : PrelimTree → ℕ
  | .leaf => 1
  | .inner l r => 1 + l.size + r.size

/-- The compactification walk of `buildInternal` (gkdtree.h 981-1043) reduced
to slot assignment: the explicit stack holds (subtree, target slot in
`m_nodes`) pairs; the root goes to slot 0 with `nodePtr = 1`; popping an inner
node allocates the consecutive pair `(nodePtr, nodePtr+1)` for its children
(the source pushes the right child first, so the left child is processed
first) and records `(target slot, left child slot)`. -/
def compactWalk : List (PrelimTree × ℕ) → ℕ → List (ℕ × ℕ) → List (ℕ × ℕ)
  | [], _, acc => acc
  | (.leaf, _) :: rest, nodePtr, acc => compactWalk rest nodePtr acc
  | (.inner l r, s) :: rest, nodePtr, acc =>
      compactWalk ((l, nodePtr) :: (r, nodePtr + 1) :: rest) (nodePtr + 2)
        ((s, nodePtr) :: acc)
termination_by st _ _ => (st.map fun p => p.1.size).sum
decreasing_by all_goals (simp [PrelimTree.size]; try omega)

/-- The (parent slot, left child slot) pairs of the final layout of tree `t`:
the root is written to `m_nodes[0]` and child allocation starts at
`nodePtr = 1` (gkdtree.h 965, 981, 1027-1028). -/
def compactPairs (t : PrelimTree) : List (ℕ × ℕ) := compactWalk [(t, 0)] 1 []

/-!
## The Havran traversal loop of `KDTree::rayIntersect` (claims C5, C7, C8)

The traversal (part_006 lines 46-171) works on the packed node array; here the
pointer structure is embedded as the tree `KDN` and the fixed stack
`stack[NORI_KD_MAXDEPTH]` as a function `ℕ → StackEntry` together with a ghost
field `maxSlot` recording the largest stack index read or written, so that
bounds claims about the 48-entry array become claims about `maxSlot`.
`travStep` performs one visited node per step: the C++ inner `while` descent
is the iterated inner-node case, the leaf-processing plus pop of the outer
loop is the leaf case.
-/

/-- An axis-aligned bounding box (a valid, non-reset `BoundingBox3f`). -/
structure BBoxQ where
  bmin : Vec3
  bmax : Vec3
deriving DecidableEq, Repr

/-- The node structure of the packed array as the traversal reads it:
`getPrimStart`/`getPrimEnd` of a leaf, and axis / split / `getLeft` /
`getRight` of an inner node. -/
inductive KDN
  | leaf (primStart primEnd : ℕ)
  | inner (axis : Fin 3) (split : ℚ) (l r : KDN)
deriving DecidableEq, Repr

/-- Height of a node: 1 for a leaf; a tree built with `maxDepth = D` has
height at most `D` (nodes at depth `≥ D`, root depth 1, become leaves). -/
def KDN.height : KDN → ℕ
  | .leaf _ _ => 1
  | .inner _ _ l r => 1 + max l.height r.height

/-- One entry of the traversal stack (part_006 lines 48-57): far-child node
pointer (`none` is the NULL terminator), distance along the ray, index of the
previous stack item, and the associated point. -/
structure StackEntry where
  node : Option KDN
  t : ℚ
  prev : ℕ
  p : Vec3
deriving DecidableEq, Repr

/-- The (uninitialized-memory) default stack entry. -/
def StackEntry.dflt : StackEntry := ⟨none, 0, 0, ⟨0, 0, 0⟩⟩

/-- Which way the descent at an inner node goes, following the branch
structure of part_006 lines 96-124 literally. -/
inductive DescendStep
  | goLeft
  | goRightZ1
  | goRightTrivial
  | straddleNearLeft
  | straddleNearRight
deriving DecidableEq, Repr

/-- The case analysis of the descent loop (part_006 lines 96-124) as a
function of the entry coordinate `stack[enPt].p[axis]`, the exit coordinate
`stack[exPt].p[axis]` and the split value:
`goLeft` covers cases N1, N2, N3, P5, Z2 and Z3; `goRightZ1` is case Z1
(entry exactly on the plane, exit beyond it); `goRightTrivial` covers
P1, P2, P3 and N5; the two straddle outcomes are N4 and P4. -/
def descendCase (enA exA splitVal : ℚ) : DescendStep :=
  if enA ≤ splitVal then
    if exA ≤ splitVal then .goLeft
    else if enA = splitVal then .goRightZ1
    else .straddleNearLeft
  else
    if splitVal < exA then .goRightTrivial
    else .straddleNearRight

/-- The state of the traversal loop. -/
@[ext]
structure TravState where
  stack : ℕ → StackEntry
  enPt : ℕ
  exPt : ℕ
  curr : Option KDN
  maxt : ℚ
  found : Bool
  its : ℚ × ℚ × ℚ
  maxSlot : ℕ

/-- Accumulator of the leaf primitive scan (part_006 lines 141-161). -/
structure LeafScanResult where
  maxt : ℚ
  found : Bool
  its : ℚ × ℚ × ℚ
  shadowAbort : Bool
deriving DecidableEq, Repr

/-- One iteration of the leaf loop: fetch `m_indices[entry]`, intersect the
primitive (the mesh adapter is the oracle `primIts`, returning
`some (u, v, t)` on a geometric hit), and on `t ∈ [mint, maxt]` either abort
with a shadow hit or record the hit and tighten `maxt`. -/
def leafScanStep (primIts : ℕ → Option (ℚ × ℚ × ℚ)) (indices : List ℕ)
    (mint : ℚ) (shadowRay : Bool) (s : LeafScanResult) (entry : ℕ) :
    LeafScanResult :=
  if s.shadowAbort then s
  else
    match indices.get? entry with
    | none => s
    | some primIndex =>
      match primIts primIndex with
      | none => s
      | some (u, v, t) =>
        if mint ≤ t ∧ t ≤ s.maxt then
          if shadowRay then { s with found := true, shadowAbort := true }
          else { s with maxt := t, found := true, its := (t, u, v) }
        else s

/-- The scan of a leaf's primitive range `[primStart, primEnd)`. -/
def leafScan (primIts : ℕ → Option (ℚ × ℚ × ℚ)) (indices : List ℕ)
    (mint : ℚ) (shadowRay : Bool) (primStart primEnd : ℕ)
    (init : LeafScanResult) : LeafScanResult :=
  (List.range' primStart (primEnd - primStart)).foldl
    (leafScanStep primIts indices mint shadowRay) init

/-- One visited node of the traversal loop (part_006 lines 90-170). -/
def travStep (primIts : ℕ → Option (ℚ × ℚ × ℚ)) (indices : List ℕ)
    (ray : RayQ) (mint : ℚ) (shadowRay : Bool) (st : TravState) : TravState :=
  match st.curr with
  | none => st
  | some (.inner axis split l r) =>
    let enA := (st.stack st.enPt).p.get axis
    let exA := (st.stack st.exPt).p.get axis
    let stR := { st with maxSlot := max st.maxSlot (max st.enPt st.exPt) }
    match descendCase enA exA split with
    | .goLeft => { stR with curr := some l }
    | .goRightZ1 => { stR with curr := some r }
    | .goRightTrivial => { stR with curr := some r }
    | .straddleNearLeft =>
      let distToSplit := (split - ray.o.get axis) * ray.dRcp.get axis
      let tmp := stR.exPt
      let ex1 := stR.exPt + 1
      let ex2 := if ex1 = stR.enPt then ex1 + 1 else ex1
      let e : StackEntry :=
        ⟨some r, distToSplit, tmp, (ray.point distToSplit).setAxis axis split⟩
      { stR with
        curr := some l
        exPt := ex2
        stack := fun i => if i = ex2 then e else stR.stack i
        maxSlot := max stR.maxSlot ex2 }
    | .straddleNearRight =>
      let distToSplit := (split - ray.o.get axis) * ray.dRcp.get axis
      let tmp := stR.exPt
      let ex1 := stR.exPt + 1
      let ex2 := if ex1 = stR.enPt then ex1 + 1 else ex1
      let e : StackEntry :=
        ⟨some l, distToSplit, tmp, (ray.point distToSplit).setAxis axis split⟩
      { stR with
        curr := some r
        exPt := ex2
        stack := fun i => if i = ex2 then e else stR.stack i
        maxSlot := max stR.maxSlot ex2 }
  | some (.leaf primStart primEnd) =>
    let res := leafScan primIts indices mint shadowRay primStart primEnd
      ⟨st.maxt, st.found, st.its, false⟩
    if res.shadowAbort then
      { st with
        curr := none
        found := true
        maxt := res.maxt
        its := res.its }
    else
      let stR := { st with
        maxt := res.maxt
        found := res.found
        its := res.its
        maxSlot := max st.maxSlot st.exPt }
      if res.maxt < (st.stack st.exPt).t then
        { stR with curr := none }
      else
        { stR with
          enPt := st.exPt
          curr := (st.stack st.exPt).node
          exPt := (st.stack st.exPt).prev }

/-- Iterate the traversal loop. -/
def travRun (primIts : ℕ → Option (ℚ × ℚ × ℚ)) (indices : List ℕ)
    (ray : RayQ) (mint : ℚ) (shadowRay : Bool) : ℕ → TravState → TravState
  | 0, st => st
  | fuel+1, st =>
    travRun primIts indices ray mint shadowRay fuel
      (travStep primIts indices ray mint shadowRay st)

/-- Modelled from the spec: `nori/bbox.h` is absent from `src/`.  One axis of
`TBoundingBox::rayIntersect`'s slab test (spec §4.7 step 1 — "Clip the ray
against the root's bounding box"): an axis with zero direction requires the
origin inside the slab, otherwise the parametric interval is intersected with
the slab interval computed through `dRcp`; `none` components mean "still
unbounded" (no non-zero axis processed yet). -/
def slabAxis (b : BBoxQ) (r : RayQ) (a : Fin 3) (s : Option ℚ × Option ℚ) :
    Option (Option ℚ × Option ℚ) :=
  if r.d.get a = 0 then
    if r.o.get a < b.bmin.get a ∨ b.bmax.get a < r.o.get a then none else some s
  else
    let t1 := (b.bmin.get a - r.o.get a) * r.dRcp.get a
    let t2 := (b.bmax.get a - r.o.get a) * r.dRcp.get a
    let tlo := min t1 t2
    let thi := max t1 t2
    let lo := match s.1 with
      | none => tlo
      | some l => max l tlo
    let hi := match s.2 with
      | none => thi
      | some h => min h thi
    if hi < lo then none else some (some lo, some hi)

/-- Modelled from the spec: the full slab test over the three axes. -/
def bboxRayInterval (b : BBoxQ) (r : RayQ) : Option (Option ℚ × Option ℚ) :=
  match slabAxis b r 0 (none, none) with
  | none => none
  | some s1 =>
    match slabAxis b r 1 s1 with
    | none => none
    | some s2 => slabAxis b r 2 s2

/-- The queried state of a built tree: the scene bounding box (`none` models
the reset/empty default `BoundingBox3f`, which the zero-primitive build path
never initializes), the root node and the flat primitive-index array. -/
structure BuiltTreeQ where
  bbox : Option BBoxQ
  root : KDN
  indices : List ℕ

/-- `Epsilon` from nori/common.h (`1e-4f`). -/
def epsilonQ : ℚ := 1/10000

/-- `ray.o.array().abs().maxCoeff()`. -/
def vMaxAbs (v : Vec3) : ℚ := max |v.x| (max |v.y| |v.z|)

/-- The setup part of `KDTree::rayIntersect` (part_006 lines 59-89): adaptive
ray epsilon, bounding-box clip (no hit if the box is empty or the clipped
segment is reversed), and the two-entry initial stack
(`stack[0] = (mint, ray(mint))`, `stack[1] = (maxt, ray(maxt), node = NULL)`;
the source leaves `stack[1].prev` uninitialized — the model gives it the
default 0, a value the loop never uses).  Returns `none` when the traversal
is not entered (miss), otherwise the effective `mint` and initial state. -/
def kdTravInit (tree : BuiltTreeQ) (ray : RayQ) : Option (ℚ × TravState) :=
  let mint0 := if ray.mint = epsilonQ
    then max ray.mint (ray.mint * vMaxAbs ray.o) else ray.mint
  match tree.bbox with
  | none => none
  | some b =>
    match bboxRayInterval b ray with
    | none => none
    | some (lo, hi) =>
      let mint := match lo with
        | none => mint0
        | some l => max mint0 l
      let maxt := match hi with
        | none => ray.maxt
        | some h => min ray.maxt h
      if maxt < mint then none
      else
        some (mint,
          { stack := fun i =>
              if i = 0 then ⟨none, mint, 0, ray.point mint⟩
              else if i = 1 then ⟨none, maxt, 0, ray.point maxt⟩
              else StackEntry.dflt,
            enPt := 0, exPt := 1, curr := some tree.root,
            maxt := maxt, found := false, its := (0, 0, 0), maxSlot := 1 })

/-- The final traversal state of `KDTree::rayIntersect` (`none` when the
bounding-box clip already reported a miss). -/
def kdTravFinal (fuel : ℕ) (tree : BuiltTreeQ)
    (primIts : ℕ → Option (ℚ × ℚ × ℚ)) (ray : RayQ) (shadowRay : Bool) :
    Option TravState :=
  match kdTravInit tree ray with
  | none => none
  | some (mint, st0) =>
    some (travRun primIts tree.indices ray mint shadowRay fuel st0)

/-- The boolean result of `KDTree::rayIntersect`. -/
def kdRayIntersect (fuel : ℕ) (tree : BuiltTreeQ)
    (primIts : ℕ → Option (ℚ × ℚ × ℚ)) (ray : RayQ) (shadowRay : Bool) :
    Bool :=
  match kdTravFinal fuel tree primIts ray shadowRay with
  | none => false
  | some st => st.found

/-!
### Claim C7: behaviour when the entry point lies on the split plane
-/

/-- A concrete one-split state for the witness of
`entry_on_split_plane_policy`: entry point `(1, 0, 0)` on the `x = 1` plane,
exit point `(2, 0, 0)` beyond it. -/
def z1State : TravState :=
  { stack := fun i =>
      if i = 0 then ⟨none, 0, 0, ⟨1, 0, 0⟩⟩
      else if i = 1 then ⟨none, 1, 0, ⟨2, 0, 0⟩⟩
      else StackEntry.dflt,
    enPt := 0, exPt := 1,
    curr := some (.inner 0 1 (.leaf 0 0) (.leaf 0 1)),
    maxt := 1, found := false, its := (0, 0, 0), maxSlot := 1 }

/-!
### Claim C5: the empty scene
-/

/-- The node array built for an empty scene (gkdtree.h 869-876): two 8-byte
slots of which the first is the alignment slot and the second — the root —
is the leaf `initLeafNode(0, 0)`, the empty half-open range `[0, 0)`. -/
def emptyBuildNodes : List KDNodeBits := [⟨0, 0⟩, initLeafNode 0 0]

/-- The built state for an empty scene: the zero-primitive path of
`buildInternal` returns before `m_bbox` is ever written, so the scene box
stays the reset (empty) default box (`none` in the model); the root is the
empty leaf and the index array is empty. -/
def emptyBuiltTree : BuiltTreeQ := ⟨none, .leaf 0 0, []⟩

/-- Invariant used for the empty-scene traversal: nothing has been found,
the current node is the empty root leaf or NULL, and every stack entry's node
field is NULL. -/
def EmptyRunInv (st : TravState) : Prop :=
  st.found = false ∧ (st.curr = some (.leaf 0 0) ∨ st.curr = none) ∧
    ∀ i, (st.stack i).node = none

/-!
### Claim C8: bounds on the traversal stack indices

The fixed stack has `NORI_KD_MAXDEPTH = 48` entries (valid indices 0..47) and
the builder caps the tree depth at 48 (gkdtree.h 883-886), i.e. root-to-leaf
paths have at most 47 inner nodes (`KDN.height ≤ 48`).  The ghost field
`maxSlot` records every stack index the traversal reads or writes.
-/

/-- The linked structure of pending exit points: from the current `exPt` the
`prev` indices descend to the terminal entry at slot 1 (whose `node` is the
NULL sentinel); every pending far child stored at slot `s` satisfies
`s + height ≤ D + 1`, i.e. the slot index never exceeds the depth budget
spent to reach it. -/
inductive ChainInv (D : ℕ) (stack : ℕ → StackEntry) : ℕ → Prop
  | nil : (stack 1).node = none → ChainInv D stack 1
  | cons (s : ℕ) (n : KDN) : 1 < s → (stack s).node = some n →
      (stack s).prev < s → s + n.height ≤ D + 1 →
      ChainInv D stack ((stack s).prev) → ChainInv D stack s

/-- The traversal invariant: every stack index touched so far is at most `D`,
and — while the loop is still running on node `n` — the exit chain is well
formed and both `enPt` and `exPt` respect the depth budget of `n`. -/
def StateInv (D : ℕ) (st : TravState) : Prop :=
  st.maxSlot ≤ D ∧
  ∀ n, st.curr = some n →
    ChainInv D st.stack st.exPt ∧
    st.exPt + n.height ≤ D + 1 ∧ st.enPt + n.height ≤ D + 1

/-- A small concrete tree and ray for the witness of
`traversal_stack_slots_bounded`. -/
def wTree : BuiltTreeQ :=
  ⟨some ⟨⟨0, 0, 0⟩, ⟨1, 1, 1⟩⟩, .inner 0 (1/2) (.leaf 0 0) (.leaf 0 0), []⟩

/-!
#### The depth-48 counterexample

`c8Tree 47` is the 48-level chain whose inner nodes split the x axis at
47, 46, ..., 1, each left child carrying the next split and each right child
an empty leaf — the shape a maximal-depth build can produce (inner nodes at
depths 1..47, leaves at depth 48).  The ray below enters the scene box at
`x = 0` and leaves at `x = 48`, so every one of the 47 inner nodes is a
straddling N4 case: the exit index climbs from 1 to 48 and the traversal
writes `stack[48]` — one slot beyond the 48-entry array. -/

def c8Tree : ℕ → KDN
  | 0 => .leaf 0 0
  | n+1 => .inner 0 ((n+1 : ℕ) : ℚ) (c8Tree n) (.leaf 0 0)

/-- The scene box of the chain scene. -/
def c8Box : BBoxQ := ⟨⟨0, 0, 0⟩, ⟨48, 0, 0⟩⟩

/-- The built chain tree of depth 48. -/
def c8Built : BuiltTreeQ := ⟨some c8Box, c8Tree 47, []⟩

/-- A ray along the x axis through the whole chain (the y/z components of
`dRcp` are never read because the direction is axis-aligned). -/
def c8Ray : RayQ := ⟨⟨0, 0, 0⟩, ⟨1, 0, 0⟩, ⟨1, 0, 0⟩, 0, 1000⟩

/-- The traversal stack contents after `k` straddling descents of the chain
run: slots 0 and 1 hold the initial entry/exit points, slots `2 .. k+1` the
pushed far children (empty leaves) with exit distances 47, 46, ... -/
def c8Stack (k : ℕ) : ℕ → StackEntry := fun i =>
  if i = 0 then ⟨none, 0, 0, ⟨0, 0, 0⟩⟩
  else if i = 1 then ⟨none, 48, 0, ⟨48, 0, 0⟩⟩
  else if i ≤ k + 1 then
    ⟨some (.leaf 0 0), ((49 - i : ℕ) : ℚ), i - 1, ⟨((49 - i : ℕ) : ℚ), 0, 0⟩⟩
  else StackEntry.dflt

/-- The traversal state after `k` straddling descents of the chain run. -/
def c8State (k : ℕ) : TravState :=
  { stack := c8Stack k, enPt := 0, exPt := 1 + k, curr := some (c8Tree (47 - k)),
    maxt := 48, found := false, its := (0, 0, 0), maxSlot := 1 + k }

/-!
## Sutherland–Hodgman triangle clipping (claim C9)

`Mesh::getClippedBoundingBox` (mesh.cpp 197-220) clips the triangle against
the 6 axis-aligned planes of the clip box with `sutherlandHodgman`
(mesh.cpp 150-195), expands a bounding box over the surviving vertices and
intersects it with the clip box.  The `double` arithmetic is idealized as
exact rational arithmetic.
-/

/-- The body of one loop iteration of `sutherlandHodgman` (mesh.cpp 161-193):
the vertices emitted for the directed edge `cur → next` against the plane
`sign * (coordinate - splitPos) ≥ 0`.  Crossing edges emit the parametric
intersection point whose `axis` coordinate is then overwritten with
`splitPos` ("avoid roundoff errors" — an exact no-op over `ℚ`). -/
def shClipEdge (axis : Fin 3) (splitPos sign : ℚ) (cur next : Vec3) : List Vec3 :=
  let distCur := sign * (cur.get axis - splitPos)
  let distNext := sign * (next.get axis - splitPos)
  if 0 ≤ distCur then
    if 0 ≤ distNext then [next]
    else
      let t := (splitPos - cur.get axis) / (next.get axis - cur.get axis)
      [(cur.add (Vec3.smul t (next.sub cur))).setAxis axis splitPos]
  else
    if 0 ≤ distNext then
      let t := (splitPos - cur.get axis) / (next.get axis - cur.get axis)
      [(cur.add (Vec3.smul t (next.sub cur))).setAxis axis splitPos, next]
    else []

/-- `sutherlandHodgman` (mesh.cpp 150-195): degenerate inputs (< 3 vertices)
clip to nothing; otherwise each edge `(input[i], input[(i+1) mod n])` emits
its vertices in order. -/
def sutherlandHodgman (input : List Vec3) (axis : Fin 3) (splitPos : ℚ)
    (isMinimum : Bool) : List Vec3 :=
  if input.length < 3 then []
  else
    ((input.zip (input.rotate 1)).map fun cn =>
      shClipEdge axis splitPos (if isMinimum then 1 else -1) cn.1 cn.2).flatten

/-- The six clipping passes of `Mesh::getClippedBoundingBox`
(mesh.cpp 210-213): for each axis, first the `min` plane, then the `max`
plane. -/
def sixPlaneClip (vs : List Vec3) (b : BBoxQ) : List Vec3 :=
  let v1 := sutherlandHodgman vs 0 (b.bmin.get 0) true
  let v2 := sutherlandHodgman v1 0 (b.bmax.get 0) false
  let v3 := sutherlandHodgman v2 1 (b.bmin.get 1) true
  let v4 := sutherlandHodgman v3 1 (b.bmax.get 1) false
  let v5 := sutherlandHodgman v4 2 (b.bmin.get 2) true
  sutherlandHodgman v5 2 (b.bmax.get 2) false

/-- Modelled from the spec: `nori/bbox.h` is absent from `src/`.
`BoundingBox3f::expandBy(point)` grows the box to the componentwise min/max
hull (spec §3: a bounding box is a componentwise `min ≤ max` pair). -/
def expandBox (b : BBoxQ) (p : Vec3) : BBoxQ :=
  ⟨⟨min b.bmin.x p.x, min b.bmin.y p.y, min b.bmin.z p.z⟩,
   ⟨max b.bmax.x p.x, max b.bmax.y p.y, max b.bmax.z p.z⟩⟩

/-- Modelled from the spec: a box expanded over a list of points starting
from the reset (empty, invalid) box; the empty box is `none` (spec §4.5:
"Empty clipped boxes"; §6: "returns an empty box if fully outside"). -/
def pointsBBox : List Vec3 → Option BBoxQ
  | [] => none
  | v :: vs => some (vs.foldl expandBox ⟨v, v⟩)

/-- Modelled from the spec: `BoundingBox3f::clip` intersects with another box
componentwise (the final `result.clip(bbox)` of mesh.cpp line 218). -/
def bboxClipTo (x b : BBoxQ) : BBoxQ :=
  ⟨⟨max x.bmin.x b.bmin.x, max x.bmin.y b.bmin.y, max x.bmin.z b.bmin.z⟩,
   ⟨min x.bmax.x b.bmax.x, min x.bmax.y b.bmax.y, min x.bmax.z b.bmax.z⟩⟩

/-- `Mesh::getClippedBoundingBox` (mesh.cpp 197-220) for the triangle with
vertices `v0 v1 v2`: run the six Sutherland-Hodgman passes, expand a box over
the surviving vertices (`none` when no vertex survives) and clip it to the
clip box. -/
def clippedBoundingBox (v0 v1 v2 : Vec3) (b : BBoxQ) : Option BBoxQ :=
  (pointsBBox (sixPlaneClip [v0, v1, v2] b)).map (fun r => bboxClipTo r b)

/-- Membership in the (closed) triangle with the given vertices: a convex
barycentric combination. -/
def InTri (p v0 v1 v2 : Vec3) : Prop :=
  ∃ a b c : ℚ, 0 ≤ a ∧ 0 ≤ b ∧ 0 ≤ c ∧ a + b + c = 1 ∧
    p = (Vec3.smul a v0).add ((Vec3.smul b v1).add (Vec3.smul c v2))

/-- Membership in a (closed) box. -/
def InBox (p : Vec3) (b : BBoxQ) : Prop :=
  ∀ i : Fin 3, b.bmin.get i ≤ p.get i ∧ p.get i ≤ b.bmax.get i

/-- Closure of a point set under the parametric segments that the clipper
emits. -/
def SegClosed (S : Vec3 → Prop) : Prop :=
  ∀ u v : Vec3, S u → S v → ∀ t : ℚ, 0 ≤ t → t ≤ 1 →
    S (u.add (Vec3.smul t (v.sub u)))

/-- The concrete triangle, boxes and results used by the witness of
`clippedBoundingBox_contained_and_empty`: the S1 triangle against the unit
box (a surviving clip), and a far-away triangle at `x ≥ 2` against the unit
box (fully outside). -/
def w9Box : BBoxQ := ⟨⟨0, 0, 0⟩, ⟨1, 1, 1⟩⟩

/-- A triangle entirely at `x = 2`, outside the unit box. -/
def w9FarTri : Vec3 × Vec3 × Vec3 := (⟨2, 0, 0⟩, ⟨3, 0, 0⟩, ⟨2, 1, 0⟩)

/-!
## Theorems
-/

@[simp]
theorem Vec3.get_add (a b : Vec3) (i : Fin 3) :
    (a.add b).get i = a.get i + b.get i := by
  fin_cases i <;> rfl

@[simp]
theorem Vec3.get_sub (a b : Vec3) (i : Fin 3) :
    (a.sub b).get i = a.get i - b.get i := by
  fin_cases i <;> rfl

@[simp]
theorem Vec3.get_smul (t : ℚ) (a : Vec3) (i : Fin 3) :
    (Vec3.smul t a).get i = t * a.get i := by
  fin_cases i <;> rfl

/-- C1: `Mesh::rayIntersect` does not compute the Möller–Trumbore test against
the triangle `(m_indices[3i], m_indices[3i+1], m_indices[3i+2])`: the source
fetches the third vertex index from `m_indices[3*index+3]`.  On scenario S1
(single triangle at the origin, ray from `(1/4,1/4,1)` towards `-z`) the read
is out of bounds (undefined behaviour, `none` in the model) and the expected
hit `t = 1`, `(u,v) = (1/4,1/4)` is not produced, although the intersection
with the specified indexing yields exactly that hit.  On a two-triangle mesh
the same read stays in bounds yet fetches vertex `m_indices[3]` instead of
`m_indices[2]`, making the triangle degenerate and the hit disappear. -/
theorem mesh_rayIntersect_third_vertex_index_bug :
    meshRayIntersect s1Mesh 0 s1Ray = none ∧
    meshRayIntersectSpec s1Mesh 0 s1Ray = some (1/4, 1/4, 1) ∧
    meshRayIntersect twoTriMesh 0 s1Ray = none ∧
    meshRayIntersectSpec twoTriMesh 0 s1Ray = some (1/4, 1/4, 1) := by
  refine ⟨?_, ?_, ?_, ?_⟩ <;>
    norm_num [meshRayIntersect, meshRayIntersectSpec, mollerTrumbore, s1Mesh, s1Ray,
      twoTriMesh, Vec3.sub, Vec3.add, Vec3.cross, Vec3.dot, Vec3.smul]

/-- C6: `buildInternal` throws synchronously at entry exactly when the tree is
already built, a cost is nonpositive, the empty-space bonus lies outside
`(0, 1]`, or the min-max bin count is at most 1; the checks precede every
state-creating statement, so on failure the tree stays "not built" (the
`failed` outcome of the model carries no tree state). -/
theorem buildInternal_entry_throws_iff (c : KDConfig) (n : ℕ) :
    (∃ e, buildEntry c n = .failed e) ↔
      (c.isBuilt = true ∨ c.traversalCost ≤ 0 ∨ c.queryCost ≤ 0 ∨
       c.emptySpaceBonus ≤ 0 ∨ 1 < c.emptySpaceBonus ∨ c.minMaxBins ≤ 1) := by
  unfold buildEntry buildSanityCheck
  split_ifs with h1 h2 h3 h4 h5 <;> simp_all <;> tauto

/-- C10 counterexample: with the default (valid) configuration and
`2^30 + 1` registered primitives, `buildInternal` raises no error at all — it
simply proceeds with construction.  There is no capacity check in the code. -/
theorem build_no_capacity_check_counterexample :
    buildEntry defaultConfig (2^30 + 1) = .proceeds := by
  norm_num [buildEntry, buildSanityCheck, defaultConfig]

/-- C10 amended: `build` performs no capacity check on the primitive count;
for every count above `2^30` (or any nonzero count at all) a validly
configured build proceeds to construct a tree instead of raising an error. -/
theorem build_accepts_any_primitive_count (c : KDConfig) (n : ℕ)
    (hc : buildSanityCheck c = none) (hn : 2^30 < n) :
    buildEntry c n = .proceeds := by
  unfold buildEntry
  rw [hc]
  simp only [if_neg (by omega : ¬ n = 0)]

/-- Witness for `build_accepts_any_primitive_count` at the default
configuration and `2^31` primitives. -/
theorem build_accepts_any_primitive_count_witness :
    buildEntry defaultConfig (2^31) = .proceeds :=
  build_accepts_any_primitive_count defaultConfig (2^31)
    (by norm_num [buildSanityCheck, defaultConfig]) (by norm_num)

/-- C3 counterexample: with retraction enabled and
`finalCost = primCount * Kquery` exactly (`320 = 16 * 20`), the subtree IS
torn down into a leaf — contradicting the claim that equality does not
retract. -/
theorem retraction_at_equality_counterexample :
    finalSplitDecision true 320 16 20 = .retractToLeaf := by
  norm_num [finalSplitDecision]

/-- C3 amended: with retraction enabled the split is kept exactly when
`finalCost < primCount * Kquery` (strict); at equality the subtree is
retracted. -/
theorem retraction_strictness (finalCost queryCost : ℚ) (primCount : ℕ) :
    (finalSplitDecision true finalCost primCount queryCost = .keepSplit ↔
      finalCost < (primCount : ℚ) * queryCost) ∧
    finalSplitDecision true ((primCount : ℚ) * queryCost) primCount queryCost =
      .retractToLeaf := by
  unfold finalSplitDecision
  constructor
  · split_ifs with h <;> simp_all
  · simp

@[simp]
theorem FCost.fin_ne_inf (q : ℚ) : FCost.fin q ≠ FCost.inf := fun h => FCost.noConfusion h

/-- C4 counterexample: in the event-sweep stage, with `bestCost = ∞`
(no viable split candidate), `primCount = 16`, `Kquery = 20`,
`badRefines = 0 < 3 = maxBadRefines`, neither of the claim's two leaf
conditions holds — `(a)` fails because `primCount < 16` is false and `(b)`
fails because `0 ≥ 3` is false — yet the code creates a leaf instead of
incrementing `badRefines` and splitting. -/
theorem bad_refines_gate_counterexample :
    badRefinesGateSweep .inf 20 16 0 3 = .makeLeaf ∧
    ¬ (((FCost.fin (4 * ((16 : ℚ) * 20))).ltb .inf = true ∧ 16 < 16) ∨ 3 ≤ 0) := by
  constructor
  · norm_num [badRefinesGateSweep, FCost.leb]
  · norm_num

/-- C4 amended: in both stages, whenever `bestCost ≥ primCount * Kquery`
(IEEE comparison) a leaf is created exactly when (a)
`bestCost > 4 * primCount * Kquery` and `primCount < 16`, or (b)
`badRefines ≥ maxBadRefines`, or — in the event-sweep stage only — (c)
`bestCost = ∞`; otherwise `badRefines` is incremented and the node is split;
when `bestCost < primCount * Kquery` the node is split with `badRefines`
unchanged.  (An infinite cost never reaches the min-max gate: it switches to
the O(n log n) stage instead.) -/
theorem bad_refines_gate_characterization (bestCost : FCost) (queryCost : ℚ)
    (primCount badRefines maxBadRefines : ℕ) :
    (badRefinesGateSweep bestCost queryCost primCount badRefines maxBadRefines =
        .makeLeaf ↔
      (FCost.fin ((primCount : ℚ) * queryCost)).leb bestCost = true ∧
        (((FCost.fin (4 * ((primCount : ℚ) * queryCost))).ltb bestCost = true ∧
            primCount < 16) ∨
          maxBadRefines ≤ badRefines ∨ bestCost = .inf)) ∧
    (minMaxGate bestCost queryCost primCount badRefines maxBadRefines =
        .makeLeaf ↔
      bestCost ≠ .inf ∧
        (FCost.fin ((primCount : ℚ) * queryCost)).leb bestCost = true ∧
        (((FCost.fin (4 * ((primCount : ℚ) * queryCost))).ltb bestCost = true ∧
            primCount < 16) ∨
          maxBadRefines ≤ badRefines)) ∧
    ((FCost.fin ((primCount : ℚ) * queryCost)).leb bestCost = true →
      ¬ (((FCost.fin (4 * ((primCount : ℚ) * queryCost))).ltb bestCost = true ∧
            primCount < 16) ∨
          maxBadRefines ≤ badRefines ∨ bestCost = .inf) →
      badRefinesGateSweep bestCost queryCost primCount badRefines maxBadRefines =
        .splitWith (badRefines + 1)) ∧
    ((FCost.fin ((primCount : ℚ) * queryCost)).leb bestCost = false →
      badRefinesGateSweep bestCost queryCost primCount badRefines maxBadRefines =
        .splitWith badRefines) := by
  simp only [badRefinesGateSweep, minMaxGate]
  refine ⟨?_, ?_, ?_, ?_⟩
  · split_ifs with h1 h2 <;> simp_all
  · split_ifs with h1 h2 h3 <;> simp_all [FCost.leb]
  · intro h1 h2
    split_ifs <;> simp_all
  · intro h1
    split_ifs <;> simp_all

/-- Witness for `bad_refines_gate_characterization` at a concrete input:
`bestCost = 500`, `Kquery = 20`, `primCount = 8` (leaf cost `160`),
`badRefines = 0`, `maxBadRefines = 3`; condition (a) holds
(`500 > 640` is false, so the gate splits with `badRefines = 1`). -/
theorem bad_refines_gate_characterization_witness :
    badRefinesGateSweep (.fin 500) 20 8 0 3 = .splitWith 1 :=
  (bad_refines_gate_characterization (.fin 500) 20 8 0 3).2.2.1
    (by norm_num [FCost.leb]) (by norm_num [FCost.ltb, FCost.fin_ne_inf])

theorem compactWalk_child_slots_odd (st : List (PrelimTree × ℕ)) (ptr : ℕ)
    (acc : List (ℕ × ℕ)) (hptr : ptr % 2 = 1) (hacc : ∀ p ∈ acc, p.2 % 2 = 1) :
    ∀ p ∈ compactWalk st ptr acc, p.2 % 2 = 1 := by
  induction st, ptr, acc using compactWalk.induct with
  | case1 ptr acc =>
    rw [compactWalk]
    exact hacc
  | case2 rest ptr acc s ih =>
    rw [compactWalk]
    exact ih hptr hacc
  | case3 l r s rest ptr acc ih =>
    rw [compactWalk]
    refine ih (by omega) ?_
    intro p hp
    rcases List.mem_cons.mp hp with h | h
    · rw [h]
      exact hptr
    · exact hacc p h

theorem sixteen_mul_xor_eight (k : ℕ) : (16*k) ^^^ 8 = 16*k + 8 := by
  apply Nat.eq_of_testBit_eq
  intro i
  have h2 : 16*k + 8 = (2*k+1) <<< 3 := by rw [Nat.shiftLeft_eq]; ring
  have h1 : 16*k = k <<< 4 := by rw [Nat.shiftLeft_eq]; ring
  have h8 : (8:ℕ) = 1 <<< 3 := by norm_num [Nat.shiftLeft_eq]
  rw [Nat.testBit_xor, h2, h1, h8, Nat.testBit_shiftLeft, Nat.testBit_shiftLeft,
    Nat.testBit_shiftLeft]
  rcases Nat.lt_or_ge i 3 with h | h
  · simp [show ¬ (i ≥ 3) by omega, show ¬ (i ≥ 4) by omega]
  · rcases Nat.eq_or_lt_of_le h with h3 | h4
    · rw [← h3]
      norm_num
      omega
    · have hstep : i - 3 = (i - 4) + 1 := by omega
      simp only [ge_iff_le, (by omega : 3 ≤ i), (by omega : 4 ≤ i), decide_True,
        Bool.true_and, hstep, Nat.testBit_add_one]
      have hk : (2*k+1)/2 = k := by omega
      rw [hk]
      have h1t : ¬ ((1:ℕ).testBit (i - 4 + 1)) = true := by
        rw [Nat.testBit_one_eq_true_iff_self_eq_zero]
        omega
      simp [Bool.xor_comm, h1t]

theorem sixteen_mul_add_eight_xor_eight (k : ℕ) : (16*k + 8) ^^^ 8 = 16*k := by
  calc (16*k + 8) ^^^ 8 = ((16*k) ^^^ 8) ^^^ 8 := by rw [sixteen_mul_xor_eight]
    _ = 16*k ^^^ (8 ^^^ 8) := by rw [Nat.xor_assoc]
    _ = 16*k := by simp

/-- C2: in the final node array (allocation 16-byte aligned at byte address
`base`, one alignment slot before the root, so `m_nodes[i]` sits at byte
`base + 8*(i+1)` and the root `m_nodes[0]` at the odd absolute slot 1), every
inner node's two children occupy consecutive slots, the left child's `m_nodes`
index is odd — i.e. its absolute 8-byte slot is even and its byte address is
16-byte aligned — and the sibling addresses satisfy `left XOR 8 = right` and
`right XOR 8 = left` for every inner node of every tree shape.  Moreover both
`KDNode` variants fit in two 32-bit words (8 bytes). -/
theorem kdnode_sibling_layout (t : PrelimTree) (base : ℕ) (hb : base % 16 = 0) :
    (∀ p ∈ compactPairs t,
      p.2 % 2 = 1 ∧
      (base + 8 * (p.2 + 1)) % 16 = 0 ∧
      (base + 8 * (p.2 + 1)) ^^^ 8 = base + 8 * (p.2 + 2) ∧
      (base + 8 * (p.2 + 2)) ^^^ 8 = base + 8 * (p.2 + 1)) ∧
    (∀ offset numPrims : ℕ, offset < 2^31 → offset + numPrims < 2^32 →
      (initLeafNode offset numPrims).combined < 2^32 ∧
      (initLeafNode offset numPrims).payload < 2^32) ∧
    (∀ (axis : Fin 3) (splitBits relOffset : ℕ),
      relOffset ≤ 2^28 - 1 → splitBits < 2^32 →
      (initInnerNodeBits axis splitBits relOffset).combined < 2^32 ∧
      (initInnerNodeBits axis splitBits relOffset).payload < 2^32) := by
  refine ⟨?_, ?_, ?_⟩
  · intro p hp
    have hodd : p.2 % 2 = 1 :=
      compactWalk_child_slots_odd [(t, 0)] 1 [] rfl (by simp) p hp
    obtain ⟨m, hm⟩ : ∃ m, p.2 = 2*m + 1 := ⟨p.2 / 2, by omega⟩
    obtain ⟨b, hbb⟩ : ∃ b, base = 16*b := ⟨base / 16, by omega⟩
    have haddr : base + 8 * (p.2 + 1) = 16 * (b + (m + 1)) := by
      rw [hbb, hm]; ring
    have haddr2 : base + 8 * (p.2 + 2) = 16 * (b + (m + 1)) + 8 := by
      rw [hbb, hm]; ring
    refine ⟨hodd, by rw [haddr]; omega, ?_, ?_⟩
    · rw [haddr, haddr2, sixteen_mul_xor_eight]
    · rw [haddr, haddr2, sixteen_mul_add_eight_xor_eight]
  · intro offset numPrims h1 h2
    constructor
    · have := Nat.or_lt_two_pow (x := 2^31) (y := offset) (n := 32) (by norm_num) (by omega)
      simpa [initLeafNode] using this
    · simpa [initLeafNode] using h2
  · intro axis splitBits relOffset h1 h2
    constructor
    · have hsh : relOffset <<< 2 < 2^32 := by
        rw [Nat.shiftLeft_eq]
        have : relOffset ≤ 2^28 - 1 := h1
        omega
      have hax : (axis : ℕ) < 2^32 := by
        have := axis.isLt
        omega
      have := Nat.or_lt_two_pow (x := (axis : ℕ)) (y := relOffset <<< 2) (n := 32) hax hsh
      simpa [initInnerNodeBits] using this
    · simpa [initInnerNodeBits] using h2

/-- Witness for `kdnode_sibling_layout` on the one-split tree laid out at a
16-byte-aligned base address 32: the root's children land at `m_nodes` slots
1 and 2, absolute slots 2 and 3, and `(32 + 16) XOR 8 = 32 + 24`. -/
theorem kdnode_sibling_layout_witness :
    (1 : ℕ) % 2 = 1 ∧
    (32 + 8 * (1 + 1) : ℕ) % 16 = 0 ∧
    ((32 + 8 * (1 + 1) : ℕ)) ^^^ 8 = 32 + 8 * (1 + 2) ∧
    ((32 + 8 * (1 + 2) : ℕ)) ^^^ 8 = 32 + 8 * (1 + 1) :=
  (kdnode_sibling_layout (.inner .leaf .leaf) 32 (by norm_num)).1 (0, 1)
    (by simp [compactPairs, compactWalk])

/-- C7 counterexample: at an inner node with split value 1 on its axis, an
entry point whose coordinate equals the split value (1) together with an exit
coordinate on or below the plane (0) makes the descent continue into the LEFT
child (cases Z2/Z3 of part_006 lines 96-101) — not the right child as the
claim asserts for every such visit.  Geometrically: a ray entering on the
plane and leaving towards the left half-space. -/
theorem entry_on_split_plane_goes_left_counterexample :
    descendCase 1 0 1 = .goLeft := by
  norm_num [descendCase]

/-- C7 amended: when the entry point lies exactly on the split plane, the
descent goes to the right child exactly when the exit point is strictly
beyond the plane (case Z1); when the exit point is on or below the plane the
descent goes to the left child (cases Z2/Z3).  Stated on the traversal step:
with `curr` an inner node and `stack[enPt].p[axis] = split`, the next visited
node is `r` iff `split < stack[exPt].p[axis]`, else `l`. -/
theorem entry_on_split_plane_policy (primIts : ℕ → Option (ℚ × ℚ × ℚ))
    (indices : List ℕ) (ray : RayQ) (mint : ℚ) (shadowRay : Bool)
    (st : TravState) (axis : Fin 3) (split : ℚ) (l r : KDN)
    (hc : st.curr = some (.inner axis split l r))
    (h : (st.stack st.enPt).p.get axis = split) :
    (split < (st.stack st.exPt).p.get axis →
      (travStep primIts indices ray mint shadowRay st).curr = some r) ∧
    ((st.stack st.exPt).p.get axis ≤ split →
      (travStep primIts indices ray mint shadowRay st).curr = some l) := by
  constructor
  · intro hx
    simp only [travStep, hc, descendCase, h, le_refl, if_true,
      if_neg (not_le.mpr hx), if_pos rfl]
  · intro hx
    simp only [travStep, hc, descendCase, h, le_refl, if_true, if_pos hx]

/-- Witness for `entry_on_split_plane_policy` on `z1State` (exit beyond the
plane, so the right child is taken). -/
theorem entry_on_split_plane_policy_witness :
    (travStep (fun _ => none) [] ⟨⟨1,0,0⟩, ⟨1,0,0⟩, ⟨1,0,0⟩, 0, 1⟩ 0 false
      z1State).curr = some (.leaf 0 1) :=
  (entry_on_split_plane_policy (fun _ => none) []
      ⟨⟨1,0,0⟩, ⟨1,0,0⟩, ⟨1,0,0⟩, 0, 1⟩ 0 false z1State 0 1 (.leaf 0 0)
      (.leaf 0 1) rfl (by norm_num [z1State, Vec3.get])).1
    (by norm_num [z1State, Vec3.get])

theorem travStep_emptyRunInv (primIts : ℕ → Option (ℚ × ℚ × ℚ))
    (indices : List ℕ) (ray : RayQ) (mint : ℚ) (sh : Bool) (st : TravState)
    (h : EmptyRunInv st) :
    EmptyRunInv (travStep primIts indices ray mint sh st) := by
  obtain ⟨hf, hcur, hstk⟩ := h
  rcases hcur with hcur | hcur
  · simp only [travStep, hcur]
    simp only [leafScan, List.range', List.foldl]
    split_ifs <;>
      first
        | cases ‹False›
        | exact ⟨hf, Or.inr rfl, hstk⟩
        | exact ⟨hf, Or.inr (hstk st.exPt), hstk⟩
  · simp only [travStep, hcur]
    exact ⟨hf, Or.inr hcur, hstk⟩

theorem travRun_emptyRunInv (primIts : ℕ → Option (ℚ × ℚ × ℚ))
    (indices : List ℕ) (ray : RayQ) (mint : ℚ) (sh : Bool) (fuel : ℕ)
    (st : TravState) (h : EmptyRunInv st) :
    EmptyRunInv (travRun primIts indices ray mint sh fuel st) := by
  induction fuel generalizing st with
  | zero => exact h
  | succ n ih =>
    exact ih _ (travStep_emptyRunInv primIts indices ray mint sh st h)

/-- C5: with zero primitives, `buildInternal` succeeds through its dedicated
path, allocating the two-node array `[alignment slot, initLeafNode(0,0)]`
whose root is a leaf with the empty half-open primitive range `[0, 0)`; and
afterwards `rayIntersect` reports a miss for every ray — both through the
actual code path (the scene box was never initialized, so the bounding-box
clip fails) and, more robustly, for any scene box whatsoever, because the
empty root leaf can never produce a hit. -/
theorem empty_scene_build_and_miss :
    buildEntry defaultConfig 0 = .emptyTree ∧
    emptyBuildNodes.length = 2 ∧
    (initLeafNode 0 0).isLeaf = true ∧
    (initLeafNode 0 0).getPrimStart = 0 ∧
    (initLeafNode 0 0).getPrimEnd = 0 ∧
    (∀ (fuel : ℕ) (primIts : ℕ → Option (ℚ × ℚ × ℚ)) (ray : RayQ) (sh : Bool),
      kdRayIntersect fuel emptyBuiltTree primIts ray sh = false) ∧
    (∀ (fuel : ℕ) (primIts : ℕ → Option (ℚ × ℚ × ℚ)) (ray : RayQ) (sh : Bool)
      (bbox : Option BBoxQ),
      kdRayIntersect fuel ⟨bbox, .leaf 0 0, []⟩ primIts ray sh = false) := by
  refine ⟨by norm_num [buildEntry, buildSanityCheck, defaultConfig], rfl, ?_, ?_, rfl, ?_, ?_⟩
  · decide
  · decide
  · intro fuel primIts ray sh
    simp [kdRayIntersect, kdTravFinal, kdTravInit, emptyBuiltTree]
  · intro fuel primIts ray sh bbox
    simp only [kdRayIntersect, kdTravFinal]
    cases hinit : kdTravInit ⟨bbox, .leaf 0 0, []⟩ ray with
    | none => rfl
    | some v =>
      obtain ⟨mint, st0⟩ := v
      have hstart : EmptyRunInv st0 := by
        simp only [kdTravInit] at hinit
        cases bbox with
        | none => simp at hinit
        | some b =>
          simp only at hinit
          cases hbb : bboxRayInterval b ray with
          | none => simp [hbb] at hinit
          | some s =>
            obtain ⟨lo, hi⟩ := s
            simp only [hbb] at hinit
            split_ifs at hinit <;>
              first
                | (simp only [Option.some.injEq, Prod.mk.injEq] at hinit
                   obtain ⟨hmint, hst⟩ := hinit
                   refine ⟨?_, ?_, ?_⟩
                   · rw [← hst]
                   · rw [← hst]
                     exact Or.inl rfl
                   · intro i
                     rw [← hst]
                     simp only
                     split_ifs <;> rfl)
                | simp at hinit
      have := travRun_emptyRunInv primIts [] ray mint sh fuel st0 hstart
      exact this.1

theorem KDN.one_le_height (n : KDN) : 1 ≤ n.height := by
  cases n with
  | leaf a b => exact le_refl 1
  | inner axis split l r => exact Nat.le_add_right 1 _

theorem ChainInv.one_le {D : ℕ} {stack : ℕ → StackEntry} {s : ℕ}
    (h : ChainInv D stack s) : 1 ≤ s := by
  cases h with
  | nil h1 => exact le_refl 1
  | cons s n h1 h2 h3 h4 h5 => exact le_of_lt h1

theorem ChainInv.inv {D : ℕ} {stack : ℕ → StackEntry} {s : ℕ}
    (h : ChainInv D stack s) :
    (s = 1 ∧ (stack s).node = none) ∨
    (∃ n, 1 < s ∧ (stack s).node = some n ∧ (stack s).prev < s ∧
      s + n.height ≤ D + 1 ∧ ChainInv D stack ((stack s).prev)) := by
  cases h with
  | nil h1 => exact Or.inl ⟨rfl, h1⟩
  | cons s n h1 h2 h3 h4 h5 => exact Or.inr ⟨n, h1, h2, h3, h4, h5⟩

theorem ChainInv.update_high {D : ℕ} {stack : ℕ → StackEntry} {s : ℕ}
    (h : ChainInv D stack s) (e : StackEntry) :
    ∀ j, s < j → ChainInv D (fun i => if i = j then e else stack i) s := by
  induction h with
  | nil h1 =>
    intro j hj
    exact ChainInv.nil (by simp only [if_neg (by omega : ¬ (1 : ℕ) = j)]; exact h1)
  | cons s n h1 h2 h3 h4 h5 ih =>
    intro j hj
    have hs : ¬ s = j := by omega
    refine ChainInv.cons s n h1 ?_ ?_ ?_ ?_
    · simp only [if_neg hs]
      exact h2
    · simp only [if_neg hs]
      exact h3
    · exact h4
    · simp only [if_neg hs]
      exact ih j (by omega)

theorem stateInv_travStep (D : ℕ) (primIts : ℕ → Option (ℚ × ℚ × ℚ))
    (indices : List ℕ) (ray : RayQ) (mint : ℚ) (sh : Bool) (st : TravState)
    (h : StateInv D st) :
    StateInv D (travStep primIts indices ray mint sh st) := by
  obtain ⟨hmax, hcur⟩ := h
  rcases hc : st.curr with _ | n
  · simp only [travStep, hc]
    exact ⟨hmax, hcur⟩
  · cases n with
    | leaf a b =>
      obtain ⟨hch, hex, hen⟩ := hcur _ hc
      have hexD : st.exPt ≤ D := by
        simp only [KDN.height] at hex
        omega
      simp only [travStep, hc]
      split_ifs with h1 h2
      · exact ⟨hmax, fun m hm => by simp at hm⟩
      · exact ⟨max_le hmax hexD, fun m hm => by simp at hm⟩
      · refine ⟨max_le hmax hexD, ?_⟩
        intro m hm
        simp only at hm
        rcases hch.inv with ⟨hs1, hnone⟩ | ⟨nn, h1', hnode, hprev, hbound, hchain⟩
        · rw [hnone] at hm
          exact absurd hm (by simp)
        · rw [hnode] at hm
          obtain rfl : nn = m := by
            injection hm
          refine ⟨hchain, ?_, ?_⟩
          · simp only []
            omega
          · simp only []
            omega
    | inner axis split l r =>
      obtain ⟨hch, hex, hen⟩ := hcur _ hc
      have h1l := KDN.one_le_height l
      have h1r := KDN.one_le_height r
      have hml := Nat.le_max_left l.height r.height
      have hmr := Nat.le_max_right l.height r.height
      simp only [KDN.height] at hex hen
      have hchl := hch.one_le
      simp only [travStep, hc]
      rcases hdc : descendCase ((st.stack st.enPt).p.get axis)
          ((st.stack st.exPt).p.get axis) split with _ | _ | _ | _ | _ <;>
        simp only [hdc]
      · exact ⟨max_le hmax (max_le (by omega) (by omega)),
          fun m hm => by
            obtain rfl : l = m := by injection hm
            exact ⟨hch, by simp only []; omega, by simp only []; omega⟩⟩
      · exact ⟨max_le hmax (max_le (by omega) (by omega)),
          fun m hm => by
            obtain rfl : r = m := by injection hm
            exact ⟨hch, by simp only []; omega, by simp only []; omega⟩⟩
      · exact ⟨max_le hmax (max_le (by omega) (by omega)),
          fun m hm => by
            obtain rfl : r = m := by injection hm
            exact ⟨hch, by simp only []; omega, by simp only []; omega⟩⟩
      · -- case N4: push the right child, continue in the left child
        by_cases hsk : st.exPt + 1 = st.enPt
        · simp only [if_pos hsk]
          refine ⟨max_le (max_le hmax (max_le (by omega) (by omega))) (by omega), ?_⟩
          intro m hm
          obtain rfl : l = m := by injection hm
          refine ⟨?_, by simp only []; omega, by simp only []; omega⟩
          refine ChainInv.cons _ r (by simp only []; omega) (by simp) (by simp; omega)
            (by simp; omega) ?_
          simp only [if_neg (by omega : ¬ st.exPt = st.exPt + 1 + 1)]
          have := hch.update_high
            ⟨some r, (split - ray.o.get axis) * ray.dRcp.get axis, st.exPt,
              (ray.point ((split - ray.o.get axis) * ray.dRcp.get axis)).setAxis
                axis split⟩ (st.exPt + 1 + 1) (by omega)
          convert this using 2
        · simp only [if_neg hsk]
          refine ⟨max_le (max_le hmax (max_le (by omega) (by omega))) (by omega), ?_⟩
          intro m hm
          obtain rfl : l = m := by injection hm
          refine ⟨?_, by simp only []; omega, by simp only []; omega⟩
          refine ChainInv.cons _ r (by simp only []; omega) (by simp) (by simp) (by simp; omega) ?_
          simp only [if_neg (by omega : ¬ st.exPt = st.exPt + 1)]
          have := hch.update_high
            ⟨some r, (split - ray.o.get axis) * ray.dRcp.get axis, st.exPt,
              (ray.point ((split - ray.o.get axis) * ray.dRcp.get axis)).setAxis
                axis split⟩ (st.exPt + 1) (by omega)
          convert this using 2
      · -- case P4: push the left child, continue in the right child
        by_cases hsk : st.exPt + 1 = st.enPt
        · simp only [if_pos hsk]
          refine ⟨max_le (max_le hmax (max_le (by omega) (by omega))) (by omega), ?_⟩
          intro m hm
          obtain rfl : r = m := by injection hm
          refine ⟨?_, by simp only []; omega, by simp only []; omega⟩
          refine ChainInv.cons _ l (by simp only []; omega) (by simp) (by simp; omega)
            (by simp; omega) ?_
          simp only [if_neg (by omega : ¬ st.exPt = st.exPt + 1 + 1)]
          have := hch.update_high
            ⟨some l, (split - ray.o.get axis) * ray.dRcp.get axis, st.exPt,
              (ray.point ((split - ray.o.get axis) * ray.dRcp.get axis)).setAxis
                axis split⟩ (st.exPt + 1 + 1) (by omega)
          convert this using 2
        · simp only [if_neg hsk]
          refine ⟨max_le (max_le hmax (max_le (by omega) (by omega))) (by omega), ?_⟩
          intro m hm
          obtain rfl : r = m := by injection hm
          refine ⟨?_, by simp only []; omega, by simp only []; omega⟩
          refine ChainInv.cons _ l (by simp only []; omega) (by simp) (by simp) (by simp; omega) ?_
          simp only [if_neg (by omega : ¬ st.exPt = st.exPt + 1)]
          have := hch.update_high
            ⟨some l, (split - ray.o.get axis) * ray.dRcp.get axis, st.exPt,
              (ray.point ((split - ray.o.get axis) * ray.dRcp.get axis)).setAxis
                axis split⟩ (st.exPt + 1) (by omega)
          convert this using 2

theorem stateInv_travRun (D : ℕ) (primIts : ℕ → Option (ℚ × ℚ × ℚ))
    (indices : List ℕ) (ray : RayQ) (mint : ℚ) (sh : Bool) (fuel : ℕ)
    (st : TravState) (h : StateInv D st) :
    StateInv D (travRun primIts indices ray mint sh fuel st) := by
  induction fuel generalizing st with
  | zero => exact h
  | succ n ih =>
    exact ih _ (stateInv_travStep D primIts indices ray mint sh st h)

theorem kdTravInit_shape (tree : BuiltTreeQ) (ray : RayQ) (mint : ℚ)
    (st0 : TravState) (h : kdTravInit tree ray = some (mint, st0)) :
    st0.enPt = 0 ∧ st0.exPt = 1 ∧ st0.curr = some tree.root ∧
      st0.maxSlot = 1 ∧ (st0.stack 1).node = none := by
  simp only [kdTravInit] at h
  cases htb : tree.bbox with
  | none => simp [htb] at h
  | some b =>
    simp only [htb] at h
    cases hbb : bboxRayInterval b ray with
    | none => simp [hbb] at h
    | some s =>
      obtain ⟨lo, hi⟩ := s
      simp only [hbb] at h
      split_ifs at h <;>
        first
          | (simp only [Option.some.injEq, Prod.mk.injEq] at h
             obtain ⟨hmint, hst⟩ := h
             subst hst
             exact ⟨rfl, rfl, rfl, rfl, rfl⟩)
          | simp at h

theorem kd_stack_bound (D fuel : ℕ) (tree : BuiltTreeQ)
    (primIts : ℕ → Option (ℚ × ℚ × ℚ)) (ray : RayQ) (sh : Bool)
    (hD : tree.root.height ≤ D) :
    ((kdTravFinal fuel tree primIts ray sh).map TravState.maxSlot).getD 0 ≤ D := by
  simp only [kdTravFinal]
  cases hinit : kdTravInit tree ray with
  | none => simp
  | some v =>
    obtain ⟨mint, st0⟩ := v
    obtain ⟨he, hx, hc, hm, hn⟩ := kdTravInit_shape tree ray mint st0 hinit
    have hD1 : 1 ≤ D := le_trans (KDN.one_le_height tree.root) hD
    have hinv : StateInv D st0 := by
      refine ⟨by omega, ?_⟩
      intro n hcn
      rw [hc] at hcn
      obtain rfl : tree.root = n := by injection hcn
      refine ⟨?_, by rw [hx]; omega, by rw [he]; omega⟩
      rw [hx]
      exact ChainInv.nil hn
    have := stateInv_travRun D primIts tree.indices ray mint sh fuel st0 hinv
    simpa using this.1

/-- C8 amended: for every built tree (depth capped at 48, i.e.
`root.height ≤ 48`) and every ray, the traversal touches stack slots only at
indices at most 48 — one more slot than the 48-entry array provides — and the
fixed 48-entry stack (indices 0..47) is sufficient exactly when the tree
depth is at most 47.  (`maxSlot` is the largest stack index read or written
during the whole query; for a miss before the loop it is reported as 0.) -/
theorem traversal_stack_slots_bounded (fuel : ℕ) (tree : BuiltTreeQ)
    (primIts : ℕ → Option (ℚ × ℚ × ℚ)) (ray : RayQ) (sh : Bool)
    (h48 : tree.root.height ≤ 48) :
    ((kdTravFinal fuel tree primIts ray sh).map TravState.maxSlot).getD 0 ≤ 48 ∧
    (tree.root.height ≤ 47 →
      ((kdTravFinal fuel tree primIts ray sh).map TravState.maxSlot).getD 0 ≤ 47) :=
  ⟨kd_stack_bound 48 fuel tree primIts ray sh h48,
   fun h47 => kd_stack_bound 47 fuel tree primIts ray sh h47⟩

/-- Witness for `traversal_stack_slots_bounded` at `wTree` (height 2 ≤ 47)
and a concrete ray. -/
theorem traversal_stack_slots_bounded_witness :
    ((kdTravFinal 5 wTree (fun _ => none)
        ⟨⟨0, 0, 0⟩, ⟨1, 0, 0⟩, ⟨1, 0, 0⟩, 0, 10⟩ false).map
      TravState.maxSlot).getD 0 ≤ 47 :=
  (traversal_stack_slots_bounded 5 wTree (fun _ => none)
      ⟨⟨0, 0, 0⟩, ⟨1, 0, 0⟩, ⟨1, 0, 0⟩, 0, 10⟩ false
      (by norm_num [wTree, KDN.height])).2
    (by norm_num [wTree, KDN.height])

theorem c8_height (n : ℕ) : (c8Tree n).height = n + 1 := by
  induction n with
  | zero => rfl
  | succ m ih =>
    simp [c8Tree, KDN.height, ih]
    omega

theorem c8_travStep (k : ℕ) (hk : k ≤ 46) :
    travStep (fun _ => none) [] c8Ray 0 false (c8State k) = c8State (k + 1) := by
  obtain ⟨a, ha⟩ : ∃ a, 46 - k = a := ⟨46 - k, rfl⟩
  have h47 : 47 - k = a + 1 := by omega
  have h48' : 48 - k = a + 2 := by omega
  have hcur : (c8State k).curr =
      some (.inner 0 ((a + 1 : ℕ) : ℚ) (c8Tree a) (.leaf 0 0)) := by
    simp only [c8State, h47]
    rfl
  have hen : ((c8State k).stack (c8State k).enPt).p.get 0 = 0 := by
    simp [c8State, c8Stack, Vec3.get]
  have hexA : ((c8State k).stack (c8State k).exPt).p.get 0 = ((a + 2 : ℕ) : ℚ) := by
    rcases Nat.eq_zero_or_pos k with hk0 | hk0
    · subst hk0
      have ha46 : a = 46 := by omega
      subst ha46
      simp only [c8State, c8Stack]
      norm_num [Vec3.get]
    · simp only [c8State, c8Stack]
      rw [if_neg (by omega : ¬ 1 + k = 0), if_neg (by omega : ¬ 1 + k = 1),
        if_pos (by omega : 1 + k ≤ k + 1)]
      simp only [Vec3.get]
      congr 1
      omega
  have hanonneg : (0 : ℚ) ≤ (a : ℚ) := Nat.cast_nonneg a
  have hdc : descendCase 0 ((a + 2 : ℕ) : ℚ) ((a + 1 : ℕ) : ℚ) =
      .straddleNearLeft := by
    unfold descendCase
    rw [if_pos (by push_cast; linarith), if_neg (by push_cast; linarith),
      if_neg (by push_cast; intro hcontra; linarith)]
  simp only [travStep, hcur, hen, hexA, hdc]
  have hne : ¬ (c8State k).exPt + 1 = (c8State k).enPt := by
    simp only [c8State]
    omega
  simp only [if_neg hne]
  have hsplit : ((a + 1 : ℕ) : ℚ) = ((47 - k : ℕ) : ℚ) := by rw [h47]
  have hdist : (((a + 1 : ℕ) : ℚ) - c8Ray.o.get 0) * c8Ray.dRcp.get 0 =
      ((a + 1 : ℕ) : ℚ) := by
    simp [c8Ray, Vec3.get]
  refine TravState.ext ?_ ?_ ?_ ?_ ?_ ?_ ?_ ?_
  · funext i
    simp only [c8State]
    by_cases hi : i = 1 + k + 1
    · rw [if_pos hi]
      simp only [c8Stack, hi]
      rw [if_neg (by omega : ¬ 1 + k + 1 = 0), if_neg (by omega : ¬ 1 + k + 1 = 1),
        if_pos (by omega : 1 + k + 1 ≤ k + 1 + 1)]
      have h49 : 49 - (1 + k + 1) = a + 1 := by omega
      rw [h49, hdist]
      simp only [StackEntry.mk.injEq]
      refine ⟨trivial, trivial, by omega, ?_⟩
      simp only [RayQ.point, c8Ray, Vec3.add, Vec3.smul, Vec3.setAxis, Vec3.mk.injEq]
      norm_num
    · rw [if_neg hi]
      simp only [c8Stack]
      by_cases h0 : i = 0
      · rw [if_pos h0, if_pos h0]
      · rw [if_neg h0, if_neg h0]
        by_cases h1 : i = 1
        · rw [if_pos h1, if_pos h1]
        · rw [if_neg h1, if_neg h1]
          have : (i ≤ k + 1) ↔ (i ≤ k + 1 + 1) := by
            constructor
            · omega
            · intro hle
              omega
          by_cases h2 : i ≤ k + 1
          · rw [if_pos h2, if_pos (by omega : i ≤ k + 1 + 1)]
          · rw [if_neg h2, if_neg (by omega : ¬ i ≤ k + 1 + 1)]
  · simp [c8State]
  · simp only [c8State]
    omega
  · simp only [c8State]
    have : 47 - (k + 1) = a := by omega
    rw [this]
  · simp [c8State]
  · simp [c8State]
  · simp [c8State]
  · simp only [c8State]
    simp only [Nat.max_def]
    split_ifs <;> omega

theorem c8_travRun (j : ℕ) : ∀ k, k + j ≤ 47 →
    travRun (fun _ => none) [] c8Ray 0 false j (c8State k) = c8State (k + j) := by
  induction j with
  | zero =>
    intro k hk
    rfl
  | succ m ih =>
    intro k hk
    rw [travRun, c8_travStep k (by omega), ih (k + 1) (by omega)]
    congr 1
    omega

theorem c8_init : kdTravInit c8Built c8Ray = some (0, c8State 0) := by
  have hbb : bboxRayInterval c8Box c8Ray = some (some 0, some 48) := by
    norm_num [bboxRayInterval, slabAxis, c8Box, c8Ray, Vec3.get]
  simp only [kdTravInit, c8Built, hbb]
  rw [if_neg (by norm_num [c8Ray, epsilonQ] : ¬ c8Ray.mint = epsilonQ)]
  rw [if_neg (by norm_num [c8Ray] : ¬ min c8Ray.maxt 48 < max c8Ray.mint 0)]
  refine congrArg some (Prod.ext ?_ ?_)
  · norm_num [c8Ray]
  · refine TravState.ext ?_ ?_ ?_ ?_ ?_ ?_ ?_ ?_
    · funext i
      simp only [c8State, c8Stack]
      by_cases h0 : i = 0
      · rw [if_pos h0, if_pos h0]
        norm_num [c8Ray, RayQ.point, Vec3.add, Vec3.smul]
      · rw [if_neg h0, if_neg h0]
        by_cases h1 : i = 1
        · rw [if_pos h1, if_pos h1]
          norm_num [c8Ray, RayQ.point, Vec3.add, Vec3.smul]
        · rw [if_neg h1, if_neg h1, if_neg (by omega : ¬ i ≤ 0 + 1)]
    · rfl
    · rfl
    · rfl
    · norm_num [c8State, c8Ray]
    · rfl
    · rfl
    · rfl

/-- C8 counterexample: on the depth-48 chain tree (inside the claim's depth
cap `min(⌈8+1.3·log₂ N⌉, 48) = 48`) and the axis-aligned ray through all 47
straddling split planes, the traversal's exit index climbs to 48 and the
query writes `stack[48]` — the 48-entry stack of `KDTree::rayIntersect`
(valid indices 0..47) is overrun, refuting the claim that `stack[i]` is never
read or written for `i ≥ 48`. -/
theorem traversal_stack_touches_slot_48 :
    (c8Built.root.height = 48) ∧
    ((kdTravFinal 47 c8Built (fun _ => none) c8Ray false).map
      TravState.maxSlot).getD 0 = 48 := by
  constructor
  · simp [c8Built, c8_height]
  · simp only [kdTravFinal, c8_init, show c8Built.indices = [] from rfl]
    rw [c8_travRun 47 0 (by omega)]
    rfl

@[simp]
theorem Vec3.get_setAxis_same (v : Vec3) (a : Fin 3) (q : ℚ) :
    (v.setAxis a q).get a = q := by
  fin_cases a <;> rfl

theorem Vec3.setAxis_eq_self (v : Vec3) (a : Fin 3) (q : ℚ) (h : v.get a = q) :
    v.setAxis a q = v := by
  fin_cases a <;>
    (cases v
     simp only [Vec3.get] at h
     simp [Vec3.setAxis, h])

theorem segClosed_inTri (v0 v1 v2 : Vec3) :
    SegClosed (fun p => InTri p v0 v1 v2) := by
  rintro u v ⟨a1, b1, c1, ha1, hb1, hc1, hs1, rfl⟩
    ⟨a2, b2, c2, ha2, hb2, hc2, hs2, rfl⟩ t ht0 ht1
  refine ⟨(1 - t) * a1 + t * a2, (1 - t) * b1 + t * b2, (1 - t) * c1 + t * c2,
    ?_, ?_, ?_, ?_, ?_⟩
  · have h1 : 0 ≤ 1 - t := by linarith
    positivity
  · have h1 : 0 ≤ 1 - t := by linarith
    positivity
  · have h1 : 0 ≤ 1 - t := by linarith
    positivity
  · linear_combination (1 - t) * hs1 + t * hs2
  · ext <;>
      (simp only [Vec3.add, Vec3.sub, Vec3.smul]
       ring)

theorem segClosed_ge (axis : Fin 3) (c : ℚ) :
    SegClosed (fun p => c ≤ p.get axis) := by
  intro u v hu hv t ht0 ht1
  simp only [Vec3.get_add, Vec3.get_smul, Vec3.get_sub]
  nlinarith [mul_nonneg ht0 (sub_nonneg.mpr hv), mul_nonneg ht0 (sub_nonneg.mpr hu)]

theorem segClosed_le (axis : Fin 3) (c : ℚ) :
    SegClosed (fun p => p.get axis ≤ c) := by
  intro u v hu hv t ht0 ht1
  simp only [Vec3.get_add, Vec3.get_smul, Vec3.get_sub]
  nlinarith [mul_nonneg ht0 (sub_nonneg.mpr hv), mul_nonneg ht0 (sub_nonneg.mpr hu)]

theorem segClosed_and {S T : Vec3 → Prop} (hS : SegClosed S) (hT : SegClosed T) :
    SegClosed (fun p => S p ∧ T p) := by
  intro u v hu hv t ht0 ht1
  exact ⟨hS u v hu.1 hv.1 t ht0 ht1, hT u v hu.2 hv.2 t ht0 ht1⟩

theorem crossing_t (ca na s : ℚ)
    (h : (ca ≤ s ∧ s ≤ na ∧ ca < na) ∨ (na ≤ s ∧ s ≤ ca ∧ na < ca)) :
    0 ≤ (s - ca) / (na - ca) ∧ (s - ca) / (na - ca) ≤ 1 ∧
      ca + (s - ca) / (na - ca) * (na - ca) = s := by
  have hne : na - ca ≠ 0 := by
    rcases h with ⟨h1, h2, h3⟩ | ⟨h1, h2, h3⟩ <;> intro hc <;> nlinarith
  refine ⟨?_, ?_, ?_⟩
  · rcases h with ⟨h1, h2, h3⟩ | ⟨h1, h2, h3⟩
    · exact div_nonneg (by linarith) (by linarith)
    · rw [show s - ca = -(ca - s) by ring, show na - ca = -(ca - na) by ring,
        neg_div_neg_eq]
      exact div_nonneg (by linarith) (by linarith)
  · rcases h with ⟨h1, h2, h3⟩ | ⟨h1, h2, h3⟩
    · exact (div_le_one (by linarith)).mpr (by linarith)
    · rw [show s - ca = -(ca - s) by ring, show na - ca = -(ca - na) by ring,
        neg_div_neg_eq]
      exact (div_le_one (by linarith)).mpr (by linarith)
  · rw [div_mul_cancel₀ _ hne]
    ring

/-- Every vertex emitted for one edge lies in any segment-closed set
containing the edge's endpoints, and is weakly inside the pass's half-space
(`0 ≤ sign * (coordinate - splitPos)`). -/
theorem shClipEdge_subset (S : Vec3 → Prop) (hS : SegClosed S)
    (axis : Fin 3) (splitPos sign : ℚ) (hsign : sign = 1 ∨ sign = -1)
    (cur next : Vec3) (hcur : S cur) (hnext : S next) :
    ∀ w ∈ shClipEdge axis splitPos sign cur next,
      S w ∧ 0 ≤ sign * (w.get axis - splitPos) := by
  intro w hw
  simp only [shClipEdge] at hw
  split_ifs at hw with hdc hdn hdn
  · simp only [List.mem_singleton] at hw
    subst hw
    exact ⟨hnext, hdn⟩
  · simp only [List.mem_singleton] at hw
    subst hw
    have hcc : (cur.get axis ≤ splitPos ∧ splitPos ≤ next.get axis ∧
        cur.get axis < next.get axis) ∨
        (next.get axis ≤ splitPos ∧ splitPos ≤ cur.get axis ∧
        next.get axis < cur.get axis) := by
      rcases hsign with rfl | rfl
      · right
        refine ⟨by nlinarith, by nlinarith, by nlinarith⟩
      · left
        refine ⟨by nlinarith, by nlinarith, by nlinarith⟩
    obtain ⟨ht0, ht1, hcoord⟩ :=
      crossing_t (cur.get axis) (next.get axis) splitPos hcc
    refine ⟨?_, ?_⟩
    · have hax : (cur.add (Vec3.smul ((splitPos - cur.get axis) /
          (next.get axis - cur.get axis)) (next.sub cur))).get axis = splitPos := by
        simp only [Vec3.get_add, Vec3.get_smul, Vec3.get_sub]
        linarith [hcoord]
      rw [Vec3.setAxis_eq_self _ _ _ hax]
      exact hS cur next hcur hnext _ ht0 ht1
    · rw [Vec3.get_setAxis_same]
      simp
  · rcases List.mem_cons.mp hw with hw | hw
    · subst hw
      have hcc : (cur.get axis ≤ splitPos ∧ splitPos ≤ next.get axis ∧
          cur.get axis < next.get axis) ∨
          (next.get axis ≤ splitPos ∧ splitPos ≤ cur.get axis ∧
          next.get axis < cur.get axis) := by
        rcases hsign with rfl | rfl
        · left
          refine ⟨by nlinarith, by nlinarith, by nlinarith⟩
        · right
          refine ⟨by nlinarith, by nlinarith, by nlinarith⟩
      obtain ⟨ht0, ht1, hcoord⟩ :=
        crossing_t (cur.get axis) (next.get axis) splitPos hcc
      refine ⟨?_, ?_⟩
      · have hax : (cur.add (Vec3.smul ((splitPos - cur.get axis) /
            (next.get axis - cur.get axis)) (next.sub cur))).get axis = splitPos := by
          simp only [Vec3.get_add, Vec3.get_smul, Vec3.get_sub]
          linarith [hcoord]
        rw [Vec3.setAxis_eq_self _ _ _ hax]
        exact hS cur next hcur hnext _ ht0 ht1
      · rw [Vec3.get_setAxis_same]
        simp
    · simp only [List.mem_singleton] at hw
      subst hw
      exact ⟨hnext, hdn⟩
  · simp at hw

/-- Every vertex emitted by one clipping pass lies in any segment-closed set
containing the input vertices, and satisfies the pass\'s half-space
constraint. -/
theorem sutherlandHodgman_subset (S : Vec3 → Prop) (hS : SegClosed S)
    (input : List Vec3) (hin : ∀ v ∈ input, S v) (axis : Fin 3)
    (splitPos : ℚ) (isMin : Bool) :
    ∀ w ∈ sutherlandHodgman input axis splitPos isMin,
      S w ∧ (if isMin then splitPos ≤ w.get axis else w.get axis ≤ splitPos) := by
  intro w hw
  unfold sutherlandHodgman at hw
  by_cases hlen : input.length < 3
  · rw [if_pos hlen] at hw
    simp at hw
  · rw [if_neg hlen] at hw
    rw [List.mem_flatten] at hw
    obtain ⟨l, hl, hwl⟩ := hw
    rw [List.mem_map] at hl
    obtain ⟨cn, hcn, rfl⟩ := hl
    obtain ⟨cur, next⟩ := cn
    simp only at hwl
    have hmem := List.of_mem_zip hcn
    have hcur : S cur := hin cur hmem.1
    have hnext : S next := hin next (List.mem_rotate.mp hmem.2)
    have hsign : (if isMin then (1:ℚ) else -1) = 1 ∨
        (if isMin then (1:ℚ) else -1) = -1 := by
      cases isMin <;> simp
    have hedge := shClipEdge_subset S hS axis splitPos _ hsign cur next hcur
      hnext w hwl
    refine ⟨hedge.1, ?_⟩
    have hc := hedge.2
    cases isMin with
    | true =>
      simp only [if_true] at hc ⊢
      nlinarith
    | false =>
      simp only [Bool.false_eq_true, if_false] at hc ⊢
      nlinarith

/-- Every vertex surviving all six passes lies in the triangle and in the
clip box. -/
theorem sixPlaneClip_subset (v0 v1 v2 : Vec3) (clip : BBoxQ) :
    ∀ w ∈ sixPlaneClip [v0, v1, v2] clip,
      InTri w v0 v1 v2 ∧ InBox w clip := by
  have hv0 : InTri v0 v0 v1 v2 := by
    refine ⟨1, 0, 0, by norm_num, by norm_num, by norm_num, by norm_num, ?_⟩
    ext <;> (simp only [Vec3.add, Vec3.smul]; ring)
  have hv1 : InTri v1 v0 v1 v2 := by
    refine ⟨0, 1, 0, by norm_num, by norm_num, by norm_num, by norm_num, ?_⟩
    ext <;> (simp only [Vec3.add, Vec3.smul]; ring)
  have hv2 : InTri v2 v0 v1 v2 := by
    refine ⟨0, 0, 1, by norm_num, by norm_num, by norm_num, by norm_num, ?_⟩
    ext <;> (simp only [Vec3.add, Vec3.smul]; ring)
  have hS0 := segClosed_inTri v0 v1 v2
  have h1 := sutherlandHodgman_subset _ hS0 [v0, v1, v2]
    (by
      intro v hv
      simp only [List.mem_cons, List.not_mem_nil, or_false] at hv
      rcases hv with rfl | rfl | rfl
      · exact hv0
      · exact hv1
      · exact hv2) 0 (clip.bmin.get 0) true
  have hS1 := segClosed_and hS0 (segClosed_ge 0 (clip.bmin.get 0))
  have h2 := sutherlandHodgman_subset _ hS1 _
    (fun v hv => by
      have := h1 v hv
      simp only [if_true] at this
      exact this) 0 (clip.bmax.get 0) false
  have hS2 := segClosed_and hS1 (segClosed_le 0 (clip.bmax.get 0))
  have h3 := sutherlandHodgman_subset _ hS2 _
    (fun v hv => by
      have := h2 v hv
      simp only [Bool.false_eq_true, if_false] at this
      exact ⟨this.1, this.2⟩) 1 (clip.bmin.get 1) true
  have hS3 := segClosed_and hS2 (segClosed_ge 1 (clip.bmin.get 1))
  have h4 := sutherlandHodgman_subset _ hS3 _
    (fun v hv => by
      have := h3 v hv
      simp only [if_true] at this
      exact ⟨this.1, this.2⟩) 1 (clip.bmax.get 1) false
  have hS4 := segClosed_and hS3 (segClosed_le 1 (clip.bmax.get 1))
  have h5 := sutherlandHodgman_subset _ hS4 _
    (fun v hv => by
      have := h4 v hv
      simp only [Bool.false_eq_true, if_false] at this
      exact ⟨this.1, this.2⟩) 2 (clip.bmin.get 2) true
  have hS5 := segClosed_and hS4 (segClosed_ge 2 (clip.bmin.get 2))
  have h6 := sutherlandHodgman_subset _ hS5 _
    (fun v hv => by
      have := h5 v hv
      simp only [if_true] at this
      exact ⟨this.1, this.2⟩) 2 (clip.bmax.get 2) false
  intro w hw
  have := h6 w hw
  simp only [Bool.false_eq_true, if_false] at this
  obtain ⟨⟨⟨⟨⟨⟨hT, hx0⟩, hx1⟩, hy0⟩, hy1⟩, hz0⟩, hz1⟩ := this
  refine ⟨hT, ?_⟩
  intro i
  fin_cases i
  · exact ⟨hx0, hx1⟩
  · exact ⟨hy0, hy1⟩
  · exact ⟨hz0, hz1⟩

/-- C9: `getClippedBoundingBox` clips the triangle against the 6 planes of
the clip box (Sutherland-Hodgman, in exact arithmetic modelling the source's
double precision) and (i) whenever it returns a box, that box is contained in
the clip box componentwise; (ii) whenever the triangle lies fully outside the
clip box (no point of the closed triangle lies in the closed box), the
returned box is the empty (invalid) box. -/
theorem clippedBoundingBox_contained_and_empty (v0 v1 v2 : Vec3) (clip : BBoxQ) :
    (∀ b, clippedBoundingBox v0 v1 v2 clip = some b →
      ∀ i : Fin 3, clip.bmin.get i ≤ b.bmin.get i ∧ b.bmax.get i ≤ clip.bmax.get i) ∧
    ((∀ p, InTri p v0 v1 v2 → ¬ InBox p clip) →
      clippedBoundingBox v0 v1 v2 clip = none) := by
  constructor
  · intro b hb i
    simp only [clippedBoundingBox, Option.map_eq_some'] at hb
    obtain ⟨r, hr, rfl⟩ := hb
    fin_cases i <;>
      (simp only [bboxClipTo, Vec3.get]
       exact ⟨le_max_right _ _, min_le_right _ _⟩)
  · intro hdisj
    cases hL : sixPlaneClip [v0, v1, v2] clip with
    | nil => simp [clippedBoundingBox, hL, pointsBBox]
    | cons w ws =>
      have hw := sixPlaneClip_subset v0 v1 v2 clip w (by rw [hL]; simp)
      exact absurd hw.2 (hdisj w hw.1)

/-- Witness for `clippedBoundingBox_contained_and_empty`: its containment
half applied to the S1 triangle clipped by the unit box, and its emptiness
half applied to a triangle lying entirely at `x ≥ 2`. -/
theorem clippedBoundingBox_contained_and_empty_witness :
    (∀ i : Fin 3,
      w9Box.bmin.get i ≤ (bboxClipTo ⟨⟨0,0,0⟩, ⟨1,1,0⟩⟩ w9Box).bmin.get i ∧
      (bboxClipTo ⟨⟨0,0,0⟩, ⟨1,1,0⟩⟩ w9Box).bmax.get i ≤ w9Box.bmax.get i) ∧
    clippedBoundingBox w9FarTri.1 w9FarTri.2.1 w9FarTri.2.2 w9Box = none := by
  constructor
  · exact (clippedBoundingBox_contained_and_empty ⟨0,0,0⟩ ⟨1,0,0⟩ ⟨0,1,0⟩ w9Box).1
      (bboxClipTo ⟨⟨0,0,0⟩, ⟨1,1,0⟩⟩ w9Box)
      (by norm_num [clippedBoundingBox, sixPlaneClip, sutherlandHodgman,
        shClipEdge, w9Box, Vec3.get, Vec3.setAxis, Vec3.add, Vec3.sub, Vec3.smul,
        List.rotate, pointsBBox, expandBox, List.zip, List.zipWith])
  · refine (clippedBoundingBox_contained_and_empty _ _ _ w9Box).2 ?_
    rintro p ⟨a, b, c, ha, hb, hc, hsum, rfl⟩ hbox
    have hx := (hbox 0).2
    simp only [w9Box, w9FarTri, Vec3.add, Vec3.smul, Vec3.get] at hx
    nlinarith

end NoriKD
